import Mathlib

/-!
Verification of the khun-phaen-tracker-offline repository: a shallow embedding
of the CRDT task replica (src/wasm-crdt/src/lib.rs) and of the sync server's
room registry and session handlers (src/sync-server/src/main.rs), together
with theorems settling the specification claims.

Modelling conventions:
- Rust `HashMap`/`DashMap` values are modelled as association lists with
  first-occurrence lookup, in-place replacement on insert, and
  first-occurrence removal on erase (the semantics of a key-unique map).
- `u64`/`u32` counters are modelled as `Nat` (Rust integer overflow is a
  program error — a panic in debug builds — so completed executions stay
  below the bound and no wrap-around is modelled).
- Wall-clock instants (`chrono::DateTime`) are modelled as `Nat`.
- JSON serialization (`serde_json`) is modelled at the JSON-tree level with
  a `Json` inductive; map keys are serialized as decimal strings exactly as
  serde does for integer-keyed maps.
- Channels (`broadcast::Sender`) are modelled by returning the list of
  published events, tagged with the room code of the bus they went to.
-/

/-- Lookup in an association list: the value of the first matching key. -/
def alFind {α β : Type} [DecidableEq α] : List (α × β) → α → Option β
  | [], _ => none
  | (k', v') :: rest, k => if k' = k then some v' else alFind rest k

/-- Map insert: replace the first occurrence of the key, else append. -/
def alInsert {α β : Type} [DecidableEq α] : List (α × β) → α → β → List (α × β)
  | [], k, v => [(k, v)]
  | (k', v') :: rest, k, v =>
    if k' = k then (k, v) :: rest else (k', v') :: alInsert rest k v

/-- Map remove: drop the first occurrence of the key. -/
def alErase {α β : Type} [DecidableEq α] : List (α × β) → α → List (α × β)
  | [], _ => []
  | (k', v') :: rest, k => if k' = k then rest else (k', v') :: alErase rest k

/-- Lamport timestamp `(counter, node_id)` from src/wasm-crdt/src/lib.rs. -/
structure LamportTimestamp where
  counter : Nat
  node_id : String
deriving DecidableEq

/-- Strict order on timestamps: the Rust `derive(PartialOrd, Ord)` on the
struct is lexicographic in field declaration order, counter first, then
`node_id` compared bytewise (UTF-8 byte order equals codepoint order). -/
def tsLtb (a b : LamportTimestamp) : Bool :=
  a.counter < b.counter || (a.counter == b.counter && decide (a.node_id < b.node_id))

/-- The `>` comparison used throughout the CRDT source. -/
def tsGtb (a b : LamportTimestamp) : Bool := tsLtb b a

/-- A last-writer-wins register value, `CrdtValue` in the source. -/
structure CrdtValue where
  value : String
  timestamp : LamportTimestamp
deriving DecidableEq

/-- A task record, `CrdtTask` in the source. -/
structure CrdtTask where
  id : Nat
  fields : List (String × CrdtValue)
  deleted : Bool
  created_at : LamportTimestamp
  updated_at : LamportTimestamp
deriving DecidableEq

/-- A journal entry, `Operation` in the source. -/
inductive Operation where
  | insert (task_id : Nat) (field value : String) (timestamp : LamportTimestamp)
  | update (task_id : Nat) (field value : String) (timestamp : LamportTimestamp)
  | delete (task_id : Nat) (timestamp : LamportTimestamp)
deriving DecidableEq

/-- The per-node document store, `CrdtDocument` in the source. -/
structure CrdtDocument where
  node_id : String
  counter : Nat
  tasks : List (Nat × CrdtTask)
  operations : List Operation
deriving DecidableEq

/-- Constructor `CrdtDocument::new`. -/
def CrdtDocument.new (node_id : String) : CrdtDocument :=
  { node_id := node_id, counter := 0, tasks := [], operations := [] }

/-- Method `CrdtDocument::new_timestamp`: increment the counter, then read. -/
def CrdtDocument.new_timestamp (d : CrdtDocument) : LamportTimestamp × CrdtDocument :=
  (⟨d.counter + 1, d.node_id⟩, { d with counter := d.counter + 1 })

/-- Method `CrdtDocument::upsert_field`. -/
def CrdtDocument.upsert_field (d : CrdtDocument) (task_id : Nat) (field value : String) :
    CrdtDocument :=
  let p := d.new_timestamp
  let timestamp := p.1
  let d1 := p.2
  let task : CrdtTask :=
    match alFind d1.tasks task_id with
    | some t => t
    | none =>
      { id := task_id, fields := [], deleted := false,
        created_at := timestamp, updated_at := timestamp }
  let should_update : Bool :=
    match alFind task.fields field with
    | some existing => tsGtb timestamp existing.timestamp
    | none => true
  if should_update then
    let fields1 := alInsert task.fields field ⟨value, timestamp⟩
    let task1 := { task with fields := fields1, updated_at := timestamp }
    let op : Operation :=
      if fields1.length == 1 && field == "title" then
        .insert task_id field value timestamp
      else
        .update task_id field value timestamp
    { d1 with tasks := alInsert d1.tasks task_id task1,
              operations := d1.operations ++ [op] }
  else
    { d1 with tasks := alInsert d1.tasks task_id task }

/-- Method `CrdtDocument::delete_task`: note that the timestamp is minted
before the existence check, so the counter advances unconditionally. -/
def CrdtDocument.delete_task (d : CrdtDocument) (task_id : Nat) : CrdtDocument :=
  let p := d.new_timestamp
  let timestamp := p.1
  let d1 := p.2
  match alFind d1.tasks task_id with
  | some task =>
    { d1 with
      tasks := alInsert d1.tasks task_id
        { task with deleted := true, updated_at := timestamp },
      operations := d1.operations ++ [.delete task_id timestamp] }
  | none => d1

/-- Field loop body of `CrdtDocument::merge`: fold the remote fields into the
local ones with last-writer-wins on strict `>`. -/
def mergeFields (locals others : List (String × CrdtValue)) : List (String × CrdtValue) :=
  others.foldl
    (fun acc kv =>
      match alFind acc kv.1 with
      | some lv => if tsGtb kv.2.timestamp lv.timestamp then alInsert acc kv.1 kv.2 else acc
      | none => alInsert acc kv.1 kv.2)
    locals

/-- Per-task body of `CrdtDocument::merge`. -/
def mergeTask (tasks : List (Nat × CrdtTask)) (task_id : Nat) (other : CrdtTask) :
    List (Nat × CrdtTask) :=
  match alFind tasks task_id with
  | some localTask =>
    let fields1 := mergeFields localTask.fields other.fields
    let deleted1 :=
      if other.deleted && tsGtb other.updated_at localTask.updated_at then true
      else localTask.deleted
    let updated1 :=
      if tsGtb other.updated_at localTask.updated_at then other.updated_at
      else localTask.updated_at
    alInsert tasks task_id
      { localTask with fields := fields1, deleted := deleted1, updated_at := updated1 }
  | none => if other.deleted then tasks else alInsert tasks task_id other

/-- Task-map part of `CrdtDocument::merge` (the JSON argument already parsed). -/
def mergeTasks (tasks others : List (Nat × CrdtTask)) : List (Nat × CrdtTask) :=
  others.foldl (fun acc kv => mergeTask acc kv.1 kv.2) tasks

/-- Method `CrdtDocument::merge` on the parsed remote task map. -/
def CrdtDocument.merge (d : CrdtDocument) (others : List (Nat × CrdtTask)) : CrdtDocument :=
  { d with tasks := mergeTasks d.tasks others }

/-- Private method `CrdtDocument::apply_field_update`. -/
def applyFieldUpdate (tasks : List (Nat × CrdtTask)) (task_id : Nat)
    (field value : String) (timestamp : LamportTimestamp) : List (Nat × CrdtTask) :=
  match alFind tasks task_id with
  | some task =>
    match alFind task.fields field with
    | some existing =>
      if tsGtb existing.timestamp timestamp then tasks
      else alInsert tasks task_id
        { task with fields := alInsert task.fields field ⟨value, timestamp⟩ }
    | none =>
      alInsert tasks task_id
        { task with fields := alInsert task.fields field ⟨value, timestamp⟩ }
  | none =>
    alInsert tasks task_id
      { id := task_id, fields := [(field, ⟨value, timestamp⟩)], deleted := false,
        created_at := timestamp, updated_at := timestamp }

/-- Private method `CrdtDocument::apply_deletion`. -/
def applyDeletion (tasks : List (Nat × CrdtTask)) (task_id : Nat)
    (timestamp : LamportTimestamp) : List (Nat × CrdtTask) :=
  match alFind tasks task_id with
  | some task =>
    if tsGtb timestamp task.updated_at then
      alInsert tasks task_id { task with deleted := true, updated_at := timestamp }
    else tasks
  | none => tasks

/-- One step of the loop inside `CrdtDocument::apply_operations`. -/
def applyOp (tasks : List (Nat × CrdtTask)) : Operation → List (Nat × CrdtTask)
  | .insert task_id field value timestamp => applyFieldUpdate tasks task_id field value timestamp
  | .update task_id field value timestamp => applyFieldUpdate tasks task_id field value timestamp
  | .delete task_id timestamp => applyDeletion tasks task_id timestamp

/-- Method `CrdtDocument::apply_operations` on the parsed operation list. -/
def CrdtDocument.apply_operations (d : CrdtDocument) (ops : List Operation) : CrdtDocument :=
  { d with tasks := ops.foldl applyOp d.tasks }

/-- The four document mutators named by the tombstone/Lamport claims, as one
step type: the two local primitives and the two remote-ingestion primitives. -/
inductive DocStep where
  | upsert (task_id : Nat) (field value : String)
  | deleteT (task_id : Nat)
  | mergeS (others : List (Nat × CrdtTask))
  | applyS (ops : List Operation)

/-- Run one step on a document. -/
def runStep (d : CrdtDocument) : DocStep → CrdtDocument
  | .upsert task_id field value => d.upsert_field task_id field value
  | .deleteT task_id => d.delete_task task_id
  | .mergeS others => d.merge others
  | .applyS ops => d.apply_operations ops

/-- Run one step and also report the counters of the timestamps it minted
through `new_timestamp` (one for each local primitive, none otherwise). -/
def runStepMints (d : CrdtDocument) : DocStep → CrdtDocument × List Nat
  | .upsert task_id field value => (d.upsert_field task_id field value, [d.counter + 1])
  | .deleteT task_id => (d.delete_task task_id, [d.counter + 1])
  | .mergeS others => (d.merge others, [])
  | .applyS ops => (d.apply_operations ops, [])

/-- Run a list of steps, collecting all minted counters in order. -/
def runMints (d : CrdtDocument) : List DocStep → CrdtDocument × List Nat
  | [] => (d, [])
  | s :: rest =>
    let p := runStepMints d s
    let q := runMints p.1 rest
    (q.1, p.2 ++ q.2)

/-- Count of the local (timestamp-minting) steps in a step list. -/
def countMints : List DocStep → Nat
  | [] => 0
  | .upsert _ _ _ :: rest => countMints rest + 1
  | .deleteT _ :: rest => countMints rest + 1
  | .mergeS _ :: rest => countMints rest
  | .applyS _ :: rest => countMints rest

/-- The list `[a, a+1, ..., a+n-1]` of consecutive naturals. -/
def natSeq : Nat → Nat → List Nat
  | _, 0 => []
  | a, n + 1 => a :: natSeq (a + 1) n

/-- A JSON tree, the image of the serde_json serialization. -/
inductive Json where
  | str (s : String)
  | num (n : Nat)
  | jbool (b : Bool)
  | obj (kvs : List (String × Json))
  | arr (xs : List Json)

/-- Decimal digit to character, as written by serde for integer map keys. -/
def digitChar : Nat → Char
  | 0 => '0' | 1 => '1' | 2 => '2' | 3 => '3' | 4 => '4'
  | 5 => '5' | 6 => '6' | 7 => '7' | 8 => '8' | _ => '9'

/-- Character to decimal digit, the inverse direction of parsing. -/
def digitVal (c : Char) : Option Nat :=
  if c = '0' then some 0 else if c = '1' then some 1 else if c = '2' then some 2
  else if c = '3' then some 3 else if c = '4' then some 4 else if c = '5' then some 5
  else if c = '6' then some 6 else if c = '7' then some 7 else if c = '8' then some 8
  else if c = '9' then some 9 else none

/-- Decimal rendering of a natural number (most significant digit first). -/
def natToStr (n : Nat) : String :=
  if n = 0 then "0" else String.mk (((Nat.digits 10 n).reverse).map digitChar)

/-- Parse a character list as big-endian decimal digits. -/
def parseDigits : List Char → Option (List Nat)
  | [] => some []
  | c :: cs =>
    match digitVal c, parseDigits cs with
    | some d, some ds => some (d :: ds)
    | _, _ => none

/-- Decimal parsing of a map key string. -/
def strToNat (s : String) : Option Nat :=
  match s.data with
  | [] => none
  | _ => (parseDigits s.data).map (fun ds => Nat.ofDigits 10 ds.reverse)

/-- Serialization of a Lamport timestamp. -/
def encodeTs (ts : LamportTimestamp) : Json :=
  .obj [("counter", .num ts.counter), ("node_id", .str ts.node_id)]

/-- Deserialization of a Lamport timestamp. -/
def decodeTs : Json → Option LamportTimestamp
  | .obj kvs =>
    match alFind kvs "counter", alFind kvs "node_id" with
    | some (.num c), some (.str n) => some ⟨c, n⟩
    | _, _ => none
  | _ => none

/-- Serialization of a `CrdtValue`. -/
def encodeVal (v : CrdtValue) : Json :=
  .obj [("value", .str v.value), ("timestamp", encodeTs v.timestamp)]

/-- Deserialization of a `CrdtValue`. -/
def decodeVal : Json → Option CrdtValue
  | .obj kvs =>
    match alFind kvs "value", alFind kvs "timestamp" with
    | some (.str s), some tj => (decodeTs tj).map (fun ts => ⟨s, ts⟩)
    | _, _ => none
  | _ => none

/-- Serialization of the fields map of a task. -/
def encodeFields (fs : List (String × CrdtValue)) : Json :=
  .obj (fs.map (fun kv => (kv.1, encodeVal kv.2)))

/-- Deserialization of the entries of a fields map. -/
def decodeFieldsList : List (String × Json) → Option (List (String × CrdtValue))
  | [] => some []
  | (k, j) :: rest =>
    match decodeVal j, decodeFieldsList rest with
    | some v, some vs => some ((k, v) :: vs)
    | _, _ => none

/-- Deserialization of the fields map of a task. -/
def decodeFields : Json → Option (List (String × CrdtValue))
  | .obj kvs => decodeFieldsList kvs
  | _ => none

/-- Serialization of a `CrdtTask`. -/
def encodeTask (t : CrdtTask) : Json :=
  .obj [("id", .num t.id), ("fields", encodeFields t.fields), ("deleted", .jbool t.deleted),
        ("created_at", encodeTs t.created_at), ("updated_at", encodeTs t.updated_at)]

/-- Deserialization of a `CrdtTask`. -/
def decodeTask : Json → Option CrdtTask
  | .obj kvs =>
    match alFind kvs "id", alFind kvs "fields", alFind kvs "deleted",
          alFind kvs "created_at", alFind kvs "updated_at" with
    | some (.num i), some fj, some (.jbool b), some cj, some uj =>
      (decodeFields fj).bind (fun fs =>
        (decodeTs cj).bind (fun cts =>
          (decodeTs uj).map (fun uts => ⟨i, fs, b, cts, uts⟩)))
    | _, _, _, _, _ => none
  | _ => none

/-- Serialization of the whole tasks map, keys as decimal strings. -/
def encodeTasks (ts : List (Nat × CrdtTask)) : Json :=
  .obj (ts.map (fun kv => (natToStr kv.1, encodeTask kv.2)))

/-- Deserialization of the entries of the tasks map. -/
def decodeTasksList : List (String × Json) → Option (List (Nat × CrdtTask))
  | [] => some []
  | (s, j) :: rest =>
    match strToNat s, decodeTask j, decodeTasksList rest with
    | some k, some t, some ts => some ((k, t) :: ts)
    | _, _, _ => none

/-- Deserialization of the whole tasks map. -/
def decodeTasks : Json → Option (List (Nat × CrdtTask))
  | .obj kvs => decodeTasksList kvs
  | _ => none

/-- Method `CrdtDocument::export`: serialize the tasks map. -/
def CrdtDocument.export (d : CrdtDocument) : Json :=
  encodeTasks d.tasks

/-- Method `CrdtDocument::import`: parse and REPLACE the tasks map, touching
no other component; a parse failure leaves the document as it was. -/
def CrdtDocument.importDoc (d : CrdtDocument) (j : Json) : Option CrdtDocument :=
  (decodeTasks j).map (fun ts => { d with tasks := ts })

/-- Peer record, `PeerInfo` in src/sync-server/src/main.rs; the free-form
JSON metadata is kept opaque as an optional string. -/
structure PeerInfo where
  id : String
  joined_at : Nat
  is_host : Bool
  metadata : Option String
deriving DecidableEq

/-- Room state, `Room` in the source; the broadcast sender is not part of the
state (publications are modelled as outputs of the handlers). -/
structure Room where
  id : String
  host_id : String
  created_at : Nat
  peers : List (String × PeerInfo)
  document_state : Option String
  last_sync : Nat
  empty_since : Option Nat
deriving DecidableEq

/-- Events published on a room's broadcast bus, `RoomEvent` in the source. -/
inductive RoomEvent where
  | peerJoined (peer : PeerInfo)
  | peerLeft (peer_id : String)
  | dataSync (sender data : String)
  | documentUpdate (sender document : String)
  | hostChanged (new_host_id : String)
deriving DecidableEq

/-- Messages sent directly to a client, `ServerMessage` in the source. -/
inductive ServerMessage where
  | connected (peer_id room_code : String)
  | peerJoined (peer : PeerInfo)
  | peerLeft (peer_id : String)
  | dataMsg (sender data : String)
  | documentSync (document : String)
  | errorMsg (message : String)
  | roomInfo (room_code host_id : String) (peers : List PeerInfo)
  | pong
deriving DecidableEq

/-- The registry of rooms, keyed by room code (`AppState.rooms`). -/
abbrev Registry := List (String × Room)

/-- The response body of `POST /api/rooms`; `restored = false` stands for the
`restored` key being absent from the JSON body. -/
structure CreateRoomResponse where
  success : Bool
  room_code : String
  room_id : String
  host_id : String
  restored : Bool
deriving DecidableEq

/-- Handler `create_room`. The randomly generated UUID, host suffix and room
code are passed in as parameters (`fresh_room_id`, `fresh_suffix`,
`gen_code`), as is the current instant. -/
def create_room (rooms : Registry) (desired_room_code desired_host_id : Option String)
    (fresh_room_id fresh_suffix gen_code : String) (now : Nat) :
    Registry × CreateRoomResponse :=
  let room_code := desired_room_code.getD gen_code
  match alFind rooms room_code with
  | some room => (rooms, ⟨true, room_code, room.id, room.host_id, true⟩)
  | none =>
    let host_id := desired_host_id.getD ("host_" ++ fresh_suffix)
    let room : Room :=
      { id := fresh_room_id, host_id := host_id, created_at := now, peers := [],
        document_state := none, last_sync := now, empty_since := some now }
    (alInsert rooms room_code room, ⟨true, room_code, fresh_room_id, host_id, false⟩)

/-- Per-connection session variables of `handle_socket` (`current_room`,
`current_peer_id`; the bus subscription is not part of the state). -/
structure Session where
  current_room : Option String
  current_peer_id : Option String
deriving DecidableEq

/-- The `Join` arm of `handle_client_message`. Returns the updated registry,
the updated session, the messages sent directly to the joining client in
order, and the events published on room buses (tagged with the room code). -/
def handleJoin (rooms : Registry) (_sess : Session) (room_code peer_id : String)
    (is_host : Bool) (metadata : Option String) (now : Nat) :
    Except String (Registry × Session × List ServerMessage × List (String × RoomEvent)) :=
  match alFind rooms room_code with
  | none => .error "Room not found"
  | some room =>
    let room1 := if room.empty_since.isSome then { room with empty_since := none } else room
    let peer_info : PeerInfo := ⟨peer_id, now, is_host, metadata⟩
    let room2 := { room1 with peers := alInsert room1.peers peer_id peer_info }
    let events := [(room_code, RoomEvent.peerJoined peer_info)]
    let peers := room2.peers.map (fun kv => kv.2)
    let msgs :=
      [ServerMessage.roomInfo room_code room2.host_id peers,
       ServerMessage.connected peer_id room_code]
      ++ match room2.document_state with
         | some doc => [ServerMessage.documentSync doc]
         | none => []
    .ok (alInsert rooms room_code room2, ⟨some room_code, some peer_id⟩, msgs, events)

/-- Function `leave_room`: remove the peer, publish `PeerLeft` whenever the
room exists, and stamp `empty_since` when the peer set became empty. -/
def leave_room (rooms : Registry) (room_code peer_id : String) (now : Nat) :
    Registry × List (String × RoomEvent) :=
  match alFind rooms room_code with
  | none => (rooms, [])
  | some room =>
    let peers1 := alErase room.peers peer_id
    let room1 :=
      { room with peers := peers1,
                  empty_since := if peers1.isEmpty then some now else room.empty_since }
    (alInsert rooms room_code room1, [(room_code, RoomEvent.peerLeft peer_id)])

/-- The `Leave` arm of `handle_client_message`: `Option::take` clears both
session variables unconditionally; `leave_room` runs only if both were set,
and only then does the session ask to close (the returned `Bool`). -/
def handleLeave (rooms : Registry) (sess : Session) (now : Nat) :
    Registry × Session × List (String × RoomEvent) × Bool :=
  match sess.current_room, sess.current_peer_id with
  | some room_code, some peer_id =>
    let p := leave_room rooms room_code peer_id now
    (p.1, ⟨none, none⟩, p.2, true)
  | _, _ => (rooms, ⟨none, none⟩, [], false)

/-- The `SyncDocument` arm of `handle_client_message`. -/
def handleSyncDocument (rooms : Registry) (sess : Session) (document : String) (now : Nat) :
    Registry × List (String × RoomEvent) :=
  match sess.current_room, sess.current_peer_id with
  | some room_code, some peer_id =>
    match alFind rooms room_code with
    | some room =>
      (alInsert rooms room_code { room with document_state := some document, last_sync := now },
       [(room_code, RoomEvent.documentUpdate peer_id document)])
    | none => (rooms, [])
  | _, _ => (rooms, [])

/-- One sweep of `spawn_room_cleanup_task`: keep exactly the rooms that are
not stale (stale: `empty_since` set and idle at least the timeout). -/
def reapStale (rooms : Registry) (now timeout : Nat) : Registry :=
  rooms.filter (fun kv =>
    match kv.2.empty_since with
    | some t => decide (now - t < timeout)
    | none => true)

/-- Registry states reachable from server start through the handlers that
touch the peer set or `empty_since`: room creation, `Join`, `Leave` (via
`leave_room`), `SyncDocument`, and the idle reaper. -/
inductive Reachable : Registry → Prop where
  | init : Reachable []
  | create {rooms} (dc dh : Option String) (fid fsuf gc : String) (now : Nat) :
      Reachable rooms → Reachable (create_room rooms dc dh fid fsuf gc now).1
  | join {rooms rooms'} {sess sess' msgs evs} (rc pid : String) (ih : Bool)
      (md : Option String) (now : Nat) (h : Reachable rooms)
      (hok : handleJoin rooms sess rc pid ih md now = .ok (rooms', sess', msgs, evs)) :
      Reachable rooms'
  | leave {rooms} (rc pid : String) (now : Nat) :
      Reachable rooms → Reachable (leave_room rooms rc pid now).1
  | syncDoc {rooms} (sess : Session) (doc : String) (now : Nat) :
      Reachable rooms → Reachable (handleSyncDocument rooms sess doc now).1
  | reap {rooms} (now timeout : Nat) :
      Reachable rooms → Reachable (reapStale rooms now timeout)

/-- The value of the last-writer-wins register at `(task_id, field)`: the view
of a tasks map that `apply_field_update` updates pointwise. -/
def fieldVal (tasks : List (Nat × CrdtTask)) (task_id : Nat) (field : String) :
    Option CrdtValue :=
  match alFind tasks task_id with
  | some t => alFind t.fields field
  | none => none

/-- One last-writer-wins register update, the effect of `apply_field_update`
on the register it addresses: the local value survives only on strict `>`. -/
def lww (old : Option CrdtValue) (value : String) (ts : LamportTimestamp) : Option CrdtValue :=
  match old with
  | some ex => if tsGtb ex.timestamp ts then some ex else some ⟨value, ts⟩
  | none => some ⟨value, ts⟩

/-- Whether an operation is a field write (`Insert` or `Update`). -/
def fieldOp : Operation → Bool
  | .insert _ _ _ _ => true
  | .update _ _ _ _ => true
  | .delete _ _ => false

/-- The timestamp carried by an operation. -/
def opTs : Operation → LamportTimestamp
  | .insert _ _ _ ts => ts
  | .update _ _ _ ts => ts
  | .delete _ ts => ts

theorem alFind_insert_self {α β : Type} [DecidableEq α] (l : List (α × β)) (k : α) (v : β) :
    alFind (alInsert l k v) k = some v := by
  induction l with
  | nil => simp [alInsert, alFind]
  | cons kv rest ih =>
    obtain ⟨k', v'⟩ := kv
    by_cases h : k' = k
    · simp [alInsert, alFind, h]
    · simp [alInsert, alFind, h, ih]

theorem alFind_insert_ne {α β : Type} [DecidableEq α] (l : List (α × β)) (k k' : α) (v : β)
    (h : k ≠ k') : alFind (alInsert l k v) k' = alFind l k' := by
  induction l with
  | nil => simp [alInsert, alFind, h]
  | cons kv rest ih =>
    obtain ⟨k0, v0⟩ := kv
    by_cases h0 : k0 = k
    · subst h0; simp [alInsert, alFind, h]
    · simp only [alInsert, if_neg h0]
      by_cases h1 : k0 = k'
      · simp [alFind, h1]
      · simp [alFind, h1, ih]

theorem alFind_mem {α β : Type} [DecidableEq α] {l : List (α × β)} {k : α} {v : β}
    (h : alFind l k = some v) : (k, v) ∈ l := by
  induction l with
  | nil => simp [alFind] at h
  | cons kv rest ih =>
    obtain ⟨k0, v0⟩ := kv
    by_cases h0 : k0 = k
    · subst h0
      simp only [alFind, if_pos rfl] at h
      cases h
      exact List.mem_cons_self _ _
    · simp only [alFind, if_neg h0] at h
      exact List.mem_cons_of_mem _ (ih h)

theorem mem_alInsert {α β : Type} [DecidableEq α] {l : List (α × β)} {k : α} {v : β}
    {kv : α × β} (h : kv ∈ alInsert l k v) : kv = (k, v) ∨ kv ∈ l := by
  induction l with
  | nil => simpa [alInsert] using h
  | cons kv0 rest ih =>
    obtain ⟨k0, v0⟩ := kv0
    by_cases h0 : k0 = k
    · simp only [alInsert, if_pos h0] at h
      rcases List.mem_cons.1 h with h1 | h1
      · exact Or.inl h1
      · exact Or.inr (List.mem_cons_of_mem _ h1)
    · simp only [alInsert, if_neg h0] at h
      rcases List.mem_cons.1 h with h1 | h1
      · exact Or.inr (by simp [h1])
      · rcases ih h1 with h2 | h2
        · exact Or.inl h2
        · exact Or.inr (List.mem_cons_of_mem _ h2)

theorem mem_alErase {α β : Type} [DecidableEq α] {l : List (α × β)} {k : α}
    {kv : α × β} (h : kv ∈ alErase l k) : kv ∈ l := by
  induction l with
  | nil => simp [alErase] at h
  | cons kv0 rest ih =>
    obtain ⟨k0, v0⟩ := kv0
    by_cases h0 : k0 = k
    · simp only [alErase, if_pos h0] at h
      exact List.mem_cons_of_mem _ h
    · simp only [alErase, if_neg h0] at h
      rcases List.mem_cons.1 h with h1 | h1
      · simp [h1]
      · exact List.mem_cons_of_mem _ (ih h1)

theorem alErase_of_find_none {α β : Type} [DecidableEq α] {l : List (α × β)} {k : α}
    (h : alFind l k = none) : alErase l k = l := by
  induction l with
  | nil => simp [alErase]
  | cons kv rest ih =>
    obtain ⟨k0, v0⟩ := kv
    by_cases h0 : k0 = k
    · simp [alFind, h0] at h
    · simp only [alFind, if_neg h0] at h
      simp [alErase, h0, ih h]

theorem alFind_eq_none_of_not_mem {α β : Type} [DecidableEq α] {l : List (α × β)} {k : α}
    (h : k ∉ l.map Prod.fst) : alFind l k = none := by
  induction l with
  | nil => simp [alFind]
  | cons kv rest ih =>
    obtain ⟨k0, v0⟩ := kv
    simp only [List.map_cons, List.mem_cons] at h
    push_neg at h
    have hne : k0 ≠ k := fun hh => h.1 hh.symm
    simp [alFind, hne, ih h.2]

theorem alFind_erase_self_of_nodup {α β : Type} [DecidableEq α] {l : List (α × β)} {k : α}
    (h : (l.map Prod.fst).Nodup) : alFind (alErase l k) k = none := by
  induction l with
  | nil => simp [alErase, alFind]
  | cons kv rest ih =>
    obtain ⟨k0, v0⟩ := kv
    simp only [List.map_cons, List.nodup_cons] at h
    by_cases h0 : k0 = k
    · subst h0
      simp only [alErase, if_pos rfl]
      exact alFind_eq_none_of_not_mem h.1
    · simp only [alErase, if_neg h0, alFind, if_neg h0]
      exact ih h.2

theorem tsLtb_iff (a b : LamportTimestamp) :
    tsLtb a b = true ↔
      a.counter < b.counter ∨ (a.counter = b.counter ∧ a.node_id < b.node_id) := by
  simp [tsLtb, Bool.or_eq_true, Bool.and_eq_true, decide_eq_true_eq]

theorem tsLtb_irrefl (a : LamportTimestamp) : tsLtb a a = false := by
  simp [tsLtb]

theorem tsLtb_asymm {a b : LamportTimestamp} (h : tsLtb a b = true) : tsLtb b a = false := by
  rw [Bool.eq_false_iff]
  intro h2
  rw [tsLtb_iff] at h h2
  rcases h with h | ⟨hc, hs⟩ <;> rcases h2 with h2 | ⟨hc2, hs2⟩
  · omega
  · omega
  · omega
  · exact absurd hs2 (lt_asymm hs)

theorem tsLtb_trans {a b c : LamportTimestamp}
    (h1 : tsLtb a b = true) (h2 : tsLtb b c = true) : tsLtb a c = true := by
  rw [tsLtb_iff] at h1 h2 ⊢
  rcases h1 with h1 | ⟨hc1, hs1⟩ <;> rcases h2 with h2 | ⟨hc2, hs2⟩
  · exact Or.inl (by omega)
  · exact Or.inl (by omega)
  · exact Or.inl (by omega)
  · exact Or.inr ⟨by omega, lt_trans hs1 hs2⟩

theorem tsLtb_total {a b : LamportTimestamp} (h : a ≠ b) :
    tsLtb a b = true ∨ tsLtb b a = true := by
  rcases Nat.lt_trichotomy a.counter b.counter with hc | hc | hc
  · exact Or.inl ((tsLtb_iff a b).mpr (Or.inl hc))
  · have hs : a.node_id ≠ b.node_id := by
      intro hn
      apply h
      cases a
      cases b
      simp_all
    rcases lt_trichotomy a.node_id b.node_id with hlt | heq | hgt
    · exact Or.inl ((tsLtb_iff a b).mpr (Or.inr ⟨hc, hlt⟩))
    · exact absurd heq hs
    · exact Or.inr ((tsLtb_iff b a).mpr (Or.inr ⟨hc.symm, hgt⟩))
  · exact Or.inr ((tsLtb_iff b a).mpr (Or.inl hc))

theorem tsGtb_cases (a b : LamportTimestamp) :
    (tsGtb a b = true ∧ tsGtb b a = false) ∨
    (tsGtb a b = false ∧ tsGtb b a = false ∧ a = b) ∨
    (tsGtb a b = false ∧ tsGtb b a = true) := by
  unfold tsGtb
  by_cases hab : a = b
  · subst hab
    exact Or.inr (Or.inl ⟨tsLtb_irrefl a, tsLtb_irrefl a, rfl⟩)
  · rcases tsLtb_total hab with h | h
    · exact Or.inr (Or.inr ⟨tsLtb_asymm h, h⟩)
    · exact Or.inl ⟨h, tsLtb_asymm h⟩

theorem tsGtb_trans {a b c : LamportTimestamp}
    (h1 : tsGtb a b = true) (h2 : tsGtb b c = true) : tsGtb a c = true :=
  tsLtb_trans h2 h1

theorem tsGtb_eq_or_rev {a b : LamportTimestamp} (h : tsGtb a b = false) :
    a = b ∨ tsGtb b a = true := by
  rcases tsGtb_cases a b with h1 | h1 | h1
  · rw [h1.1] at h
    exact Bool.noConfusion h
  · exact Or.inl h1.2.2
  · exact Or.inr h1.2

theorem lww_comm (old : Option CrdtValue) (v1 v2 : String) (ts1 ts2 : LamportTimestamp)
    (hne : ts1 ≠ ts2) : lww (lww old v1 ts1) v2 ts2 = lww (lww old v2 ts2) v1 ts1 := by
  have h12 : (tsGtb ts1 ts2 = true ∧ tsGtb ts2 ts1 = false) ∨
      (tsGtb ts1 ts2 = false ∧ tsGtb ts2 ts1 = true) := by
    rcases tsGtb_cases ts1 ts2 with h | h | h
    · exact Or.inl ⟨h.1, h.2⟩
    · exact absurd h.2.2 hne
    · exact Or.inr ⟨h.1, h.2⟩
  cases old with
  | none =>
    rcases h12 with ⟨h1, h2⟩ | ⟨h1, h2⟩ <;> simp [lww, h1, h2]
  | some ex =>
    cases hx1 : tsGtb ex.timestamp ts1 <;> cases hx2 : tsGtb ex.timestamp ts2
    · rcases h12 with ⟨h1, h2⟩ | ⟨h1, h2⟩ <;> simp [lww, hx1, hx2, h1, h2]
    · have hgt : tsGtb ts1 ts2 = true := by
        rcases tsGtb_eq_or_rev hx1 with he | hg
        · rw [← he]
          exact hx2
        · exact tsGtb_trans hg hx2
      simp [lww, hx1, hx2, hgt]
    · have hgt : tsGtb ts2 ts1 = true := by
        rcases tsGtb_eq_or_rev hx2 with he | hg
        · rw [← he]
          exact hx1
        · exact tsGtb_trans hg hx1
      simp [lww, hx1, hx2, hgt]
    · simp [lww, hx1, hx2]

theorem fieldVal_applyFieldUpdate (tasks : List (Nat × CrdtTask)) (tid : Nat)
    (f0 v0 : String) (ts : LamportTimestamp) (id : Nat) (f : String) :
    fieldVal (applyFieldUpdate tasks tid f0 v0 ts) id f =
      if tid = id ∧ f0 = f then lww (fieldVal tasks id f) v0 ts
      else fieldVal tasks id f := by
  by_cases hid : tid = id
  · subst hid
    by_cases hf : f0 = f
    · subst hf
      cases h1 : alFind tasks tid with
      | none =>
        simp [applyFieldUpdate, h1, fieldVal, alFind_insert_self, alFind, lww]
      | some task =>
        cases h2 : alFind task.fields f0 with
        | none =>
          simp [applyFieldUpdate, h1, h2, fieldVal, alFind_insert_self, lww]
        | some existing =>
          cases h3 : tsGtb existing.timestamp ts with
          | false =>
            simp [applyFieldUpdate, h1, h2, h3, fieldVal, alFind_insert_self, lww]
          | true =>
            simp [applyFieldUpdate, h1, h2, h3, fieldVal, lww]
    · cases h1 : alFind tasks tid with
      | none =>
        simp [applyFieldUpdate, h1, fieldVal, alFind_insert_self, alFind, hf]
      | some task =>
        cases h2 : alFind task.fields f0 with
        | none =>
          simp [applyFieldUpdate, h1, h2, fieldVal, alFind_insert_self,
                alFind_insert_ne _ _ _ _ hf, hf]
        | some existing =>
          cases h3 : tsGtb existing.timestamp ts with
          | false =>
            simp [applyFieldUpdate, h1, h2, h3, fieldVal, alFind_insert_self,
                  alFind_insert_ne _ _ _ _ hf, hf]
          | true =>
            simp [applyFieldUpdate, h1, h2, h3, fieldVal, hf]
  · cases h1 : alFind tasks tid with
    | none =>
      simp [applyFieldUpdate, h1, fieldVal, alFind_insert_ne _ _ _ _ hid, hid]
    | some task =>
      cases h2 : alFind task.fields f0 with
      | none =>
        simp [applyFieldUpdate, h1, h2, fieldVal, alFind_insert_ne _ _ _ _ hid, hid]
      | some existing =>
        cases h3 : tsGtb existing.timestamp ts with
        | false =>
          simp [applyFieldUpdate, h1, h2, h3, fieldVal, alFind_insert_ne _ _ _ _ hid, hid]
        | true =>
          simp [applyFieldUpdate, h1, h2, h3, fieldVal, hid]

theorem fieldVal_applyOp_congr {t1 t2 : List (Nat × CrdtTask)} (op : Operation)
    (hop : fieldOp op = true)
    (h : ∀ id f, fieldVal t1 id f = fieldVal t2 id f) :
    ∀ id f, fieldVal (applyOp t1 op) id f = fieldVal (applyOp t2 op) id f := by
  intro id f
  cases op with
  | insert tid f0 v0 ts =>
    simp only [applyOp, fieldVal_applyFieldUpdate, h]
  | update tid f0 v0 ts =>
    simp only [applyOp, fieldVal_applyFieldUpdate, h]
  | delete _ _ => simp [fieldOp] at hop

theorem fieldVal_afu_swap (t : List (Nat × CrdtTask)) (tid1 tid2 : Nat)
    (f1 f2 v1 v2 : String) (ts1 ts2 : LamportTimestamp) (hne : ts1 ≠ ts2) (id : Nat)
    (f : String) :
    fieldVal (applyFieldUpdate (applyFieldUpdate t tid1 f1 v1 ts1) tid2 f2 v2 ts2) id f =
      fieldVal (applyFieldUpdate (applyFieldUpdate t tid2 f2 v2 ts2) tid1 f1 v1 ts1) id f := by
  simp only [fieldVal_applyFieldUpdate]
  by_cases c1 : tid1 = id ∧ f1 = f <;> by_cases c2 : tid2 = id ∧ f2 = f <;>
    simp [c1, c2]
  exact lww_comm _ _ _ _ _ hne

theorem fieldVal_applyOp_swap {t : List (Nat × CrdtTask)} (x y : Operation)
    (hx : fieldOp x = true) (hy : fieldOp y = true) (hne : opTs x ≠ opTs y) :
    ∀ id f, fieldVal (applyOp (applyOp t x) y) id f
          = fieldVal (applyOp (applyOp t y) x) id f := by
  intro id f
  cases x with
  | delete _ _ => simp [fieldOp] at hx
  | insert tid1 f1 v1 ts1 =>
    cases y with
    | delete _ _ => simp [fieldOp] at hy
    | insert tid2 f2 v2 ts2 => exact fieldVal_afu_swap t tid1 tid2 f1 f2 v1 v2 ts1 ts2 hne id f
    | update tid2 f2 v2 ts2 => exact fieldVal_afu_swap t tid1 tid2 f1 f2 v1 v2 ts1 ts2 hne id f
  | update tid1 f1 v1 ts1 =>
    cases y with
    | delete _ _ => simp [fieldOp] at hy
    | insert tid2 f2 v2 ts2 => exact fieldVal_afu_swap t tid1 tid2 f1 f2 v1 v2 ts1 ts2 hne id f
    | update tid2 f2 v2 ts2 => exact fieldVal_afu_swap t tid1 tid2 f1 f2 v1 v2 ts1 ts2 hne id f

theorem fieldVal_foldl_congr {t1 t2 : List (Nat × CrdtTask)} {ops : List Operation}
    (hops : ∀ op ∈ ops, fieldOp op = true)
    (h : ∀ id f, fieldVal t1 id f = fieldVal t2 id f) :
    ∀ id f, fieldVal (ops.foldl applyOp t1) id f = fieldVal (ops.foldl applyOp t2) id f := by
  induction ops generalizing t1 t2 with
  | nil => exact h
  | cons x rest ih =>
    simp only [List.foldl_cons]
    exact ih (fun op hm => hops op (List.mem_cons_of_mem _ hm))
      (fieldVal_applyOp_congr x (hops x (List.mem_cons_self _ _)) h)

theorem fieldVal_foldl_perm {ops1 ops2 : List Operation} (hperm : ops1.Perm ops2) :
    (∀ op ∈ ops1, fieldOp op = true) →
    ops1.Pairwise (fun a b => opTs a ≠ opTs b) →
    ∀ t id f, fieldVal (ops1.foldl applyOp t) id f = fieldVal (ops2.foldl applyOp t) id f := by
  induction hperm with
  | nil =>
    intro _ _ t id f
    rfl
  | cons x hp ih =>
    intro hops hdist t id f
    simp only [List.foldl_cons]
    exact ih (fun op hm => hops op (List.mem_cons_of_mem _ hm))
      (List.pairwise_cons.mp hdist).2 (applyOp t x) id f
  | swap x y rest =>
    intro hops hdist t id f
    simp only [List.foldl_cons]
    have hyx : opTs y ≠ opTs x :=
      (List.pairwise_cons.mp hdist).1 x (List.mem_cons_self _ _)
    have hy : fieldOp y = true := hops y (List.mem_cons_self _ _)
    have hx : fieldOp x = true :=
      hops x (List.mem_cons_of_mem _ (List.mem_cons_self _ _))
    have hrest : ∀ op ∈ rest, fieldOp op = true := fun op hm => hops op (by simp [hm])
    exact fieldVal_foldl_congr hrest (fieldVal_applyOp_swap y x hy hx hyx) id f
  | trans h1 _h2 ih1 ih2 =>
    intro hops hdist t id f
    have hops2 : ∀ op ∈ _, fieldOp op = true := fun op hm => hops op (h1.mem_iff.mpr hm)
    have hdist2 := hdist.perm h1 (fun h => Ne.symm h)
    exact (ih1 hops hdist t id f).trans (ih2 hops2 hdist2 t id f)

/-- Claim C1 (counterexample): two fresh documents that receive the same SET
of operations — one as Insert-then-Delete, the other as Delete-then-Insert —
end with different tasks maps: a Delete that arrives before its task exists
is dropped, so one replica has the task tombstoned and the other has it live.
The claimed order-insensitive convergence therefore fails. -/
theorem crdt_convergence_counterexample :
    List.Perm
      [Operation.insert 1 "title" "a" ⟨1, "X"⟩, Operation.delete 1 ⟨2, "X"⟩]
      [Operation.delete 1 ⟨2, "X"⟩, Operation.insert 1 "title" "a" ⟨1, "X"⟩] ∧
    (alFind ((CrdtDocument.new "Y").apply_operations
        [Operation.insert 1 "title" "a" ⟨1, "X"⟩, Operation.delete 1 ⟨2, "X"⟩]).tasks
      1).map CrdtTask.deleted = some true ∧
    (alFind ((CrdtDocument.new "Z").apply_operations
        [Operation.delete 1 ⟨2, "X"⟩, Operation.insert 1 "title" "a" ⟨1, "X"⟩]).tasks
      1).map CrdtTask.deleted = some false := by
  refine ⟨?_, ?_, ?_⟩ <;> decide

/-- Claim C1 (amended): full tasks-map convergence fails (order of a Delete
relative to the Insert of its task is observable, and `created_at` and
`updated_at` depend on arrival order), but the last-writer-wins FIELD
registers do converge: two documents whose field registers agree and that
then apply the same multiset of `Insert`/`Update` operations — in any
orders — with pairwise-distinct timestamps agree on every field register
afterwards. -/
theorem crdt_lww_field_convergence (d1 d2 : CrdtDocument) (ops1 ops2 : List Operation)
    (hperm : ops1.Perm ops2)
    (hops : ∀ op ∈ ops1, fieldOp op = true)
    (hdist : ops1.Pairwise (fun a b => opTs a ≠ opTs b))
    (htasks : ∀ id f, fieldVal d1.tasks id f = fieldVal d2.tasks id f) :
    ∀ id f, fieldVal (d1.apply_operations ops1).tasks id f
          = fieldVal (d2.apply_operations ops2).tasks id f := by
  intro id f
  have hstep : fieldVal (ops1.foldl applyOp d1.tasks) id f
      = fieldVal (ops1.foldl applyOp d2.tasks) id f :=
    fieldVal_foldl_congr hops htasks id f
  have hswap : fieldVal (ops1.foldl applyOp d2.tasks) id f
      = fieldVal (ops2.foldl applyOp d2.tasks) id f :=
    fieldVal_foldl_perm hperm hops hdist d2.tasks id f
  exact hstep.trans hswap

/-- Claim C1 (witness): the amended convergence theorem applied to two
concurrent title writes delivered in opposite orders to two fresh nodes. -/
theorem crdt_lww_field_convergence_witness :
    fieldVal ((CrdtDocument.new "X").apply_operations
        [Operation.insert 1 "title" "a" ⟨1, "X"⟩,
         Operation.update 1 "title" "b" ⟨2, "Y"⟩]).tasks 1 "title"
      = fieldVal ((CrdtDocument.new "Y").apply_operations
        [Operation.update 1 "title" "b" ⟨2, "Y"⟩,
         Operation.insert 1 "title" "a" ⟨1, "X"⟩]).tasks 1 "title" :=
  crdt_lww_field_convergence (CrdtDocument.new "X") (CrdtDocument.new "Y")
    [Operation.insert 1 "title" "a" ⟨1, "X"⟩, Operation.update 1 "title" "b" ⟨2, "Y"⟩]
    [Operation.update 1 "title" "b" ⟨2, "Y"⟩, Operation.insert 1 "title" "a" ⟨1, "X"⟩]
    (by decide) (by decide) (by decide) (fun id f => rfl) 1 "title"

/-- Claim C3 (counterexample): `delete_task` on an absent task id is not a
complete no-op — the Lamport counter still advances from 0 to 1, because the
timestamp is minted before the existence check. -/
theorem delete_task_missing_counterexample :
    alFind (CrdtDocument.new "n").tasks 5 = none ∧
    (CrdtDocument.new "n").delete_task 5 ≠ CrdtDocument.new "n" ∧
    ((CrdtDocument.new "n").delete_task 5).counter = 1 ∧
    (CrdtDocument.new "n").counter = 0 := by
  refine ⟨rfl, ?_, rfl, rfl⟩
  decide

/-- Claim C3 (amended): `delete_task` on an absent task id leaves the tasks
map and the operations journal unchanged but increments the Lamport counter
by exactly one. -/
theorem delete_task_missing_bumps_counter (d : CrdtDocument) (task_id : Nat)
    (h : alFind d.tasks task_id = none) :
    d.delete_task task_id = { d with counter := d.counter + 1 } := by
  unfold CrdtDocument.delete_task CrdtDocument.new_timestamp
  simp only [h]

/-- Claim C3 (witness): the amended statement evaluated on a fresh document. -/
theorem delete_task_missing_bumps_counter_witness :
    (CrdtDocument.new "w").delete_task 7
      = { CrdtDocument.new "w" with counter := (CrdtDocument.new "w").counter + 1 } :=
  delete_task_missing_bumps_counter (CrdtDocument.new "w") 7 rfl

theorem upsert_counter (d : CrdtDocument) (tid : Nat) (f v : String) :
    (d.upsert_field tid f v).counter = d.counter + 1 := by
  unfold CrdtDocument.upsert_field CrdtDocument.new_timestamp
  dsimp only
  split <;> rfl

theorem delete_counter (d : CrdtDocument) (tid : Nat) :
    (d.delete_task tid).counter = d.counter + 1 := by
  unfold CrdtDocument.delete_task CrdtDocument.new_timestamp
  dsimp only
  cases alFind d.tasks tid <;> rfl

theorem runMints_spec (steps : List DocStep) : ∀ d : CrdtDocument,
    (runMints d steps).1.counter = d.counter + countMints steps ∧
    (runMints d steps).2 = natSeq (d.counter + 1) (countMints steps) := by
  induction steps with
  | nil =>
    intro d
    exact ⟨rfl, rfl⟩
  | cons s rest ih =>
    intro d
    cases s with
    | upsert tid f v =>
      obtain ⟨ih1, ih2⟩ := ih (d.upsert_field tid f v)
      constructor
      · simp only [runMints, runStepMints, countMints, ih1, upsert_counter]
        omega
      · simp only [runMints, runStepMints, countMints, natSeq, ih2, upsert_counter,
                   List.singleton_append, List.cons.injEq, true_and]
    | deleteT tid =>
      obtain ⟨ih1, ih2⟩ := ih (d.delete_task tid)
      constructor
      · simp only [runMints, runStepMints, countMints, ih1, delete_counter]
        omega
      · simp only [runMints, runStepMints, countMints, natSeq, ih2, delete_counter,
                   List.singleton_append, List.cons.injEq, true_and]
    | mergeS others =>
      obtain ⟨ih1, ih2⟩ := ih (d.merge others)
      exact ⟨by simp only [runMints, runStepMints, countMints, ih1]; rfl,
             by simp only [runMints, runStepMints, countMints, ih2, List.nil_append]; rfl⟩
    | applyS ops =>
      obtain ⟨ih1, ih2⟩ := ih (d.apply_operations ops)
      exact ⟨by simp only [runMints, runStepMints, countMints, ih1]; rfl,
             by simp only [runMints, runStepMints, countMints, ih2, List.nil_append]; rfl⟩

/-- Claim C5: starting from a freshly constructed document (counter 0), any
run of document operations mints counters `1, 2, 3, ...` — one per local
primitive (`upsert_field` or `delete_task`), each exactly one above the
previous — while `merge` and `apply_operations` mint no timestamp and leave
the counter untouched. -/
theorem lamport_counter_discipline (nid : String) (steps : List DocStep) :
    (runMints (CrdtDocument.new nid) steps).2 = natSeq 1 (countMints steps) ∧
    (runMints (CrdtDocument.new nid) steps).1.counter = countMints steps ∧
    (∀ (d : CrdtDocument) (others : List (Nat × CrdtTask)),
      (d.merge others).counter = d.counter) ∧
    (∀ (d : CrdtDocument) (ops : List Operation),
      (d.apply_operations ops).counter = d.counter) := by
  refine ⟨(runMints_spec steps _).2, ?_, fun d o => rfl, fun d o => rfl⟩
  have h := (runMints_spec steps (CrdtDocument.new nid)).1
  simpa [CrdtDocument.new] using h

theorem tombstone_upsert (d : CrdtDocument) (id : Nat) (t : CrdtTask)
    (h : alFind d.tasks id = some t) (hd : t.deleted = true) (tid : Nat) (f v : String) :
    ∃ t', alFind (d.upsert_field tid f v).tasks id = some t' ∧ t'.deleted = true := by
  unfold CrdtDocument.upsert_field CrdtDocument.new_timestamp
  dsimp only
  by_cases hid : tid = id
  · subst hid
    simp only [h]
    split
    · exact ⟨_, alFind_insert_self _ _ _, hd⟩
    · exact ⟨_, alFind_insert_self _ _ _, hd⟩
  · split
    · exact ⟨t, by rw [alFind_insert_ne _ _ _ _ hid]; exact h, hd⟩
    · exact ⟨t, by rw [alFind_insert_ne _ _ _ _ hid]; exact h, hd⟩

theorem tombstone_delete (d : CrdtDocument) (id : Nat) (t : CrdtTask)
    (h : alFind d.tasks id = some t) (hd : t.deleted = true) (tid : Nat) :
    ∃ t', alFind (d.delete_task tid).tasks id = some t' ∧ t'.deleted = true := by
  unfold CrdtDocument.delete_task CrdtDocument.new_timestamp
  dsimp only
  by_cases hid : tid = id
  · subst hid
    simp only [h]
    exact ⟨_, alFind_insert_self _ _ _, rfl⟩
  · cases h2 : alFind d.tasks tid with
    | some task => exact ⟨t, by rw [alFind_insert_ne _ _ _ _ hid]; exact h, hd⟩
    | none => exact ⟨t, h, hd⟩

theorem tombstone_afu {tasks : List (Nat × CrdtTask)} {id : Nat} {t : CrdtTask}
    (h : alFind tasks id = some t) (hd : t.deleted = true) (tid : Nat) (f v : String)
    (ts : LamportTimestamp) :
    ∃ t', alFind (applyFieldUpdate tasks tid f v ts) id = some t' ∧ t'.deleted = true := by
  unfold applyFieldUpdate
  by_cases hid : tid = id
  · subst hid
    simp only [h]
    cases alFind t.fields f with
    | none => exact ⟨_, alFind_insert_self _ _ _, hd⟩
    | some existing =>
      dsimp only
      by_cases hgt : tsGtb existing.timestamp ts = true
      · rw [if_pos hgt]
        exact ⟨t, h, hd⟩
      · rw [if_neg hgt]
        exact ⟨_, alFind_insert_self _ _ _, hd⟩
  · cases h2 : alFind tasks tid with
    | none => exact ⟨t, by rw [alFind_insert_ne _ _ _ _ hid]; exact h, hd⟩
    | some task =>
      dsimp only
      cases alFind task.fields f with
      | none => exact ⟨t, by rw [alFind_insert_ne _ _ _ _ hid]; exact h, hd⟩
      | some existing =>
        dsimp only
        by_cases hgt : tsGtb existing.timestamp ts = true
        · rw [if_pos hgt]
          exact ⟨t, h, hd⟩
        · rw [if_neg hgt]
          exact ⟨t, by rw [alFind_insert_ne _ _ _ _ hid]; exact h, hd⟩

theorem tombstone_applyOp {tasks : List (Nat × CrdtTask)} {id : Nat} {t : CrdtTask}
    (h : alFind tasks id = some t) (hd : t.deleted = true) (op : Operation) :
    ∃ t', alFind (applyOp tasks op) id = some t' ∧ t'.deleted = true := by
  cases op with
  | insert tid f v ts => exact tombstone_afu h hd tid f v ts
  | update tid f v ts => exact tombstone_afu h hd tid f v ts
  | delete tid ts =>
    simp only [applyOp, applyDeletion]
    by_cases hid : tid = id
    · subst hid
      simp only [h]
      by_cases hgt : tsGtb ts t.updated_at = true
      · rw [if_pos hgt]
        exact ⟨_, alFind_insert_self _ _ _, rfl⟩
      · rw [if_neg hgt]
        exact ⟨t, h, hd⟩
    · cases h2 : alFind tasks tid with
      | none =>
        simp only [h2]
        exact ⟨t, h, hd⟩
      | some task =>
        simp only [h2]
        by_cases hgt : tsGtb ts task.updated_at = true
        · rw [if_pos hgt]
          exact ⟨t, by rw [alFind_insert_ne _ _ _ _ hid]; exact h, hd⟩
        · rw [if_neg hgt]
          exact ⟨t, h, hd⟩

theorem tombstone_applyOps {tasks : List (Nat × CrdtTask)} {id : Nat} {t : CrdtTask}
    (h : alFind tasks id = some t) (hd : t.deleted = true) (ops : List Operation) :
    ∃ t', alFind (ops.foldl applyOp tasks) id = some t' ∧ t'.deleted = true := by
  induction ops generalizing tasks t with
  | nil => exact ⟨t, h, hd⟩
  | cons op rest ih =>
    obtain ⟨t1, h1, hd1⟩ := tombstone_applyOp h hd op
    simp only [List.foldl_cons]
    exact ih h1 hd1

theorem tombstone_mergeTask {tasks : List (Nat × CrdtTask)} {id : Nat} {t : CrdtTask}
    (h : alFind tasks id = some t) (hd : t.deleted = true) (tid : Nat) (other : CrdtTask) :
    ∃ t', alFind (mergeTask tasks tid other) id = some t' ∧ t'.deleted = true := by
  unfold mergeTask
  dsimp only
  by_cases hid : tid = id
  · subst hid
    simp only [h]
    refine ⟨_, alFind_insert_self _ _ _, ?_⟩
    dsimp only
    split
    · rfl
    · exact hd
  · cases h2 : alFind tasks tid with
    | some localTask => exact ⟨t, by rw [alFind_insert_ne _ _ _ _ hid]; exact h, hd⟩
    | none =>
      dsimp only
      by_cases hdel : other.deleted = true
      · rw [if_pos hdel]
        exact ⟨t, h, hd⟩
      · rw [if_neg hdel]
        exact ⟨t, by rw [alFind_insert_ne _ _ _ _ hid]; exact h, hd⟩

theorem tombstone_mergeTasks {tasks : List (Nat × CrdtTask)} {id : Nat} {t : CrdtTask}
    (h : alFind tasks id = some t) (hd : t.deleted = true)
    (others : List (Nat × CrdtTask)) :
    ∃ t', alFind (mergeTasks tasks others) id = some t' ∧ t'.deleted = true := by
  induction others generalizing tasks t with
  | nil => exact ⟨t, h, hd⟩
  | cons kv rest ih =>
    obtain ⟨t1, h1, hd1⟩ := tombstone_mergeTask h hd kv.1 kv.2
    simp only [mergeTasks, List.foldl_cons]
    exact ih h1 hd1

/-- Claim C9: tombstones are monotone — once a task's `deleted` flag is true,
none of `upsert_field`, `delete_task`, `merge`, or `apply_operations` ever
resets it: the task stays present and stays deleted. -/
theorem tombstone_monotone (d : CrdtDocument) (step : DocStep) (id : Nat) (t : CrdtTask)
    (h : alFind d.tasks id = some t) (hd : t.deleted = true) :
    ∃ t', alFind (runStep d step).tasks id = some t' ∧ t'.deleted = true := by
  cases step with
  | upsert tid f v => exact tombstone_upsert d id t h hd tid f v
  | deleteT tid => exact tombstone_delete d id t h hd tid
  | mergeS others => exact tombstone_mergeTasks h hd others
  | applyS ops => exact tombstone_applyOps h hd ops

/-- Claim C9 (witness): a tombstoned task survives (as deleted) a remote
merge that carries a newer, non-deleted version of the same task. -/
theorem tombstone_monotone_witness :
    ∃ t', alFind (runStep (((CrdtDocument.new "n").upsert_field 1 "title" "a").delete_task 1)
        (DocStep.mergeS [(1, ⟨1, [("title", ⟨"b", ⟨7, "m"⟩⟩)], false, ⟨7, "m"⟩, ⟨7, "m"⟩⟩)])).tasks
      1 = some t' ∧ t'.deleted = true :=
  tombstone_monotone (((CrdtDocument.new "n").upsert_field 1 "title" "a").delete_task 1)
    (DocStep.mergeS [(1, ⟨1, [("title", ⟨"b", ⟨7, "m"⟩⟩)], false, ⟨7, "m"⟩, ⟨7, "m"⟩⟩)])
    1 ⟨1, [("title", ⟨"a", ⟨1, "n"⟩⟩)], true, ⟨1, "n"⟩, ⟨2, "n"⟩⟩ (by decide) rfl

theorem alInsert_ne_nil {α β : Type} [DecidableEq α] (l : List (α × β)) (k : α) (v : β) :
    alInsert l k v ≠ [] := by
  cases l with
  | nil => simp [alInsert]
  | cons kv rest =>
    obtain ⟨k0, v0⟩ := kv
    by_cases h0 : k0 = k <;> simp [alInsert, h0]

theorem alErase_isEmpty_imp {α β : Type} [DecidableEq α] {l : List (α × β)} {k : α}
    (h : l = []) : alErase l k = [] := by
  subst h
  rfl

/-- Claim C2: in every reachable registry state — after creation, after every
handled Join, after every leave_room call (and preserved by SyncDocument and
the idle reaper) — a room's `empty_since` is set exactly when its peer set
is empty. -/
theorem room_empty_since_iff_no_peers {rooms : Registry} (h : Reachable rooms) :
    ∀ kv ∈ rooms, (kv.2.empty_since.isSome = true ↔ kv.2.peers = []) := by
  induction h with
  | init =>
    intro kv hm
    simp at hm
  | create dc dh fid fsuf gc now _hr ih =>
    intro kv hm
    rename_i rooms0
    cases hfind : alFind rooms0 (dc.getD gc) with
    | some room =>
      simp only [create_room, hfind] at hm
      exact ih kv hm
    | none =>
      simp only [create_room, hfind] at hm
      rcases mem_alInsert hm with he | he
      · subst he
        simp
      · exact ih kv he
  | join rc pid ihost md now _hr hok ih =>
    intro kv hm
    rename_i rooms0 rooms1 sess sess1 msgs evs
    unfold handleJoin at hok
    cases hfind : alFind rooms0 rc with
    | none =>
      rw [hfind] at hok
      exact absurd hok (by simp)
    | some room =>
      rw [hfind] at hok
      dsimp only at hok
      injection hok with hok
      rw [Prod.ext_iff] at hok
      obtain ⟨h1, -⟩ := hok
      dsimp only at h1
      rw [← h1] at hm
      rcases mem_alInsert hm with he | he
      · subst he
        dsimp only
        constructor
        · intro hes
          exfalso
          by_cases hesb : room.empty_since.isSome = true
          · rw [if_pos hesb] at hes
            simp at hes
          · rw [if_neg hesb] at hes
            exact hesb hes
        · intro hp
          exact absurd hp (alInsert_ne_nil _ _ _)
      · exact ih kv he
  | leave rc pid now _hr ih =>
    intro kv hm
    rename_i rooms0
    cases hfind : alFind rooms0 rc with
    | none =>
      simp only [leave_room, hfind] at hm
      exact ih kv hm
    | some room =>
      simp only [leave_room, hfind] at hm
      rcases mem_alInsert hm with he | he
      · subst he
        dsimp only
        by_cases hemp : (alErase room.peers pid).isEmpty = true
        · rw [if_pos hemp]
          simp [List.isEmpty_iff.mp hemp]
        · rw [if_neg hemp]
          have hiff := ih (rc, room) (alFind_mem hfind)
          constructor
          · intro hes
            exact alErase_isEmpty_imp (hiff.mp hes)
          · intro hp
            exact absurd (by rw [hp]; rfl) hemp
      · exact ih kv he
  | syncDoc sess doc now _hr ih =>
    intro kv hm
    rename_i rooms0
    unfold handleSyncDocument at hm
    cases hcr : sess.current_room with
    | none =>
      rw [hcr] at hm
      exact ih kv hm
    | some rc =>
      rw [hcr] at hm
      cases hcp : sess.current_peer_id with
      | none =>
        rw [hcp] at hm
        exact ih kv hm
      | some pid =>
        rw [hcp] at hm
        dsimp only at hm
        cases hfind : alFind rooms0 rc with
        | none =>
          rw [hfind] at hm
          exact ih kv hm
        | some room =>
          rw [hfind] at hm
          dsimp only at hm
          rcases mem_alInsert hm with he | he
          · subst he
            exact ih (rc, room) (alFind_mem hfind)
          · exact ih kv he
  | reap now timeout _hr ih =>
    intro kv hm
    exact ih kv (List.mem_filter.mp hm).1

/-- Claim C2 (witness): the invariant read back on the one room of the state
reached by a single room creation — the room starts empty with `empty_since`
stamped. -/
theorem room_empty_since_iff_no_peers_witness :
    Option.isSome (some 5) = true ↔ ([] : List (String × PeerInfo)) = [] :=
  room_empty_since_iff_no_peers
    (Reachable.create (some "R") none "id0" "s0" "G" 5 Reachable.init)
    ("R", { id := "id0", host_id := "host_s0", created_at := 5, peers := [],
            document_state := none, last_sync := 5, empty_since := some 5 })
    (by decide)

/-- Claim C4 (counterexample): calling `leave_room` a second time with the
same room code and peer id is NOT a no-op: it publishes another `PeerLeft`
event, and it refreshes `empty_since` to the new instant, changing the room
state. -/
theorem leave_room_second_call_counterexample :
    (leave_room (leave_room
        [("R", { id := "r0", host_id := "h", created_at := 0,
                 peers := [("p", { id := "p", joined_at := 0, is_host := true,
                                   metadata := none })],
                 document_state := none, last_sync := 0, empty_since := none })]
        "R" "p" 1).1 "R" "p" 2).2 = [("R", RoomEvent.peerLeft "p")] ∧
    (leave_room (leave_room
        [("R", { id := "r0", host_id := "h", created_at := 0,
                 peers := [("p", { id := "p", joined_at := 0, is_host := true,
                                   metadata := none })],
                 document_state := none, last_sync := 0, empty_since := none })]
        "R" "p" 1).1 "R" "p" 2).1
      ≠ (leave_room
        [("R", { id := "r0", host_id := "h", created_at := 0,
                 peers := [("p", { id := "p", joined_at := 0, is_host := true,
                                   metadata := none })],
                 document_state := none, last_sync := 0, empty_since := none })]
        "R" "p" 1).1 := by
  refine ⟨?_, ?_⟩ <;> decide

/-- Claim C4 (amended): idempotence of the leave path holds at the session
layer — the `Leave` handler clears `current_room`/`current_peer_id` with
`Option::take`, so a second `Leave` on the same session touches nothing and
publishes nothing. The bare `leave_room` function is only idempotent on the
peer set: a repeated call removes no further peer (when peer ids are unique
in the room), but it still publishes another `PeerLeft` event. -/
theorem leave_idempotence_amended (rooms : Registry) (sess : Session) (now1 now2 : Nat)
    (rc pid : String) (room : Room) (hfind : alFind rooms rc = some room)
    (hnodup : (room.peers.map Prod.fst).Nodup) :
    (handleLeave (handleLeave rooms sess now1).1 (handleLeave rooms sess now1).2.1 now2
      = ((handleLeave rooms sess now1).1, ⟨none, none⟩, [], false)) ∧
    ((alFind (leave_room (leave_room rooms rc pid now1).1 rc pid now2).1 rc).map Room.peers
      = some (alErase room.peers pid)) ∧
    (leave_room (leave_room rooms rc pid now1).1 rc pid now2).2
      = [(rc, RoomEvent.peerLeft pid)] := by
  have hclear : (handleLeave rooms sess now1).2.1 = (⟨none, none⟩ : Session) := by
    unfold handleLeave
    rcases sess with ⟨cr, cp⟩
    cases cr <;> cases cp <;> rfl
  refine ⟨by rw [hclear]; rfl, ?_, ?_⟩
  all_goals
    have h1 : alFind (leave_room rooms rc pid now1).1 rc
        = some { room with
                   peers := alErase room.peers pid,
                   empty_since := (if (alErase room.peers pid).isEmpty then some now1
                     else room.empty_since) } := by
      unfold leave_room
      rw [hfind]
      dsimp only
      exact alFind_insert_self _ _ _
  · have hgone : alFind (alErase room.peers pid) pid = none :=
      alFind_erase_self_of_nodup hnodup
    conv_lhs => rw [leave_room]
    rw [h1]
    dsimp only
    rw [alFind_insert_self]
    dsimp only [Option.map]
    rw [alErase_of_find_none hgone]
  · conv_lhs => rw [leave_room]
    rw [h1]

/-- Claim C4 (witness): the amended statement evaluated on a one-room,
one-peer registry. -/
theorem leave_idempotence_amended_witness :
    (handleLeave (handleLeave
        [("R", { id := "r0", host_id := "h", created_at := 0,
                 peers := [("p", { id := "p", joined_at := 0, is_host := true,
                                   metadata := none })],
                 document_state := none, last_sync := 0, empty_since := none })]
        ⟨some "R", some "p"⟩ 1).1 (handleLeave
        [("R", { id := "r0", host_id := "h", created_at := 0,
                 peers := [("p", { id := "p", joined_at := 0, is_host := true,
                                   metadata := none })],
                 document_state := none, last_sync := 0, empty_since := none })]
        ⟨some "R", some "p"⟩ 1).2.1 2
      = ((handleLeave
        [("R", { id := "r0", host_id := "h", created_at := 0,
                 peers := [("p", { id := "p", joined_at := 0, is_host := true,
                                   metadata := none })],
                 document_state := none, last_sync := 0, empty_since := none })]
        ⟨some "R", some "p"⟩ 1).1, ⟨none, none⟩, [], false)) ∧
    ((alFind (leave_room (leave_room
        [("R", { id := "r0", host_id := "h", created_at := 0,
                 peers := [("p", { id := "p", joined_at := 0, is_host := true,
                                   metadata := none })],
                 document_state := none, last_sync := 0, empty_since := none })]
        "R" "p" 1).1 "R" "p" 2).1 "R").map Room.peers
      = some (alErase [("p", { id := "p", joined_at := 0, is_host := true,
                               metadata := none })] "p")) ∧
    (leave_room (leave_room
        [("R", { id := "r0", host_id := "h", created_at := 0,
                 peers := [("p", { id := "p", joined_at := 0, is_host := true,
                                   metadata := none })],
                 document_state := none, last_sync := 0, empty_since := none })]
        "R" "p" 1).1 "R" "p" 2).2 = [("R", RoomEvent.peerLeft "p")] :=
  leave_idempotence_amended
    [("R", { id := "r0", host_id := "h", created_at := 0,
             peers := [("p", { id := "p", joined_at := 0, is_host := true,
                               metadata := none })],
             document_state := none, last_sync := 0, empty_since := none })]
    ⟨some "R", some "p"⟩ 1 2 "R" "p"
    { id := "r0", host_id := "h", created_at := 0,
      peers := [("p", { id := "p", joined_at := 0, is_host := true, metadata := none })],
      document_state := none, last_sync := 0, empty_since := none }
    (by decide) (by decide)

/-- Claim C6: a successful Join sends to the joining client exactly
`RoomInfo` (carrying the post-insertion full peer list), then `Connected`,
then a single `DocumentSync` exactly when the room's `document_state` is
set — and nothing else, so no `DocumentSync` precedes `Connected`. -/
theorem join_message_order (rooms : Registry) (sess : Session) (rc pid : String)
    (is_host : Bool) (md : Option String) (now : Nat) (room : Room)
    (hfind : alFind rooms rc = some room) :
    ∃ rooms' sess' evs,
      handleJoin rooms sess rc pid is_host md now = Except.ok (rooms', sess',
        [ServerMessage.roomInfo rc room.host_id
           ((alInsert room.peers pid ⟨pid, now, is_host, md⟩).map (fun kv => kv.2)),
         ServerMessage.connected pid rc]
          ++ (match room.document_state with
              | some doc => [ServerMessage.documentSync doc]
              | none => []),
        evs) := by
  rcases room with ⟨rid, rhost, rcreated, rpeers, rdoc, rsync, rempty⟩
  cases rempty with
  | none =>
    refine ⟨alInsert rooms rc
        { id := rid, host_id := rhost, created_at := rcreated,
          peers := alInsert rpeers pid ⟨pid, now, is_host, md⟩,
          document_state := rdoc, last_sync := rsync, empty_since := none },
      ⟨some rc, some pid⟩,
      [(rc, RoomEvent.peerJoined ⟨pid, now, is_host, md⟩)], ?_⟩
    unfold handleJoin
    rw [hfind]
    rfl
  | some t =>
    refine ⟨alInsert rooms rc
        { id := rid, host_id := rhost, created_at := rcreated,
          peers := alInsert rpeers pid ⟨pid, now, is_host, md⟩,
          document_state := rdoc, last_sync := rsync, empty_since := none },
      ⟨some rc, some pid⟩,
      [(rc, RoomEvent.peerJoined ⟨pid, now, is_host, md⟩)], ?_⟩
    unfold handleJoin
    rw [hfind]
    rfl

/-- Claim C6 (witness): the message sequence for a join into a one-peer room
holding a document snapshot. -/
theorem join_message_order_witness :
    ∃ rooms' sess' evs,
      handleJoin
        [("R", { id := "r0", host_id := "h", created_at := 0,
                 peers := [("a", { id := "a", joined_at := 0, is_host := true,
                                   metadata := none })],
                 document_state := some "snap", last_sync := 0, empty_since := none })]
        ⟨none, none⟩ "R" "b" false none 9
      = Except.ok (rooms', sess',
          [ServerMessage.roomInfo "R" "h"
             ((alInsert [("a", { id := "a", joined_at := 0, is_host := true,
                                 metadata := none })] "b"
                 ⟨"b", 9, false, none⟩).map (fun kv => kv.2)),
           ServerMessage.connected "b" "R"]
            ++ (match (some "snap" : Option String) with
                | some doc => [ServerMessage.documentSync doc]
                | none => []),
          evs) :=
  join_message_order
    [("R", { id := "r0", host_id := "h", created_at := 0,
             peers := [("a", { id := "a", joined_at := 0, is_host := true,
                               metadata := none })],
             document_state := some "snap", last_sync := 0, empty_since := none })]
    ⟨none, none⟩ "R" "b" false none 9
    { id := "r0", host_id := "h", created_at := 0,
      peers := [("a", { id := "a", joined_at := 0, is_host := true, metadata := none })],
      document_state := some "snap", last_sync := 0, empty_since := none }
    (by decide)

/-- Claim C8: `POST /api/rooms` is idempotent on a supplied desired room
code: when the code is already registered the handler returns success with
the stored room's `room_id` and `host_id` and `restored = true`, leaving the
registry untouched; in particular a create followed by a second create with
the same desired code echoes the identifiers the first call returned. -/
theorem create_room_idempotent (rooms : Registry) (code : String)
    (dh dh2 : Option String) (fid fs gc fid2 fs2 gc2 : String) (now now2 : Nat) :
    (∀ room, alFind rooms code = some room →
      create_room rooms (some code) dh fid fs gc now
        = (rooms, ⟨true, code, room.id, room.host_id, true⟩)) ∧
    (alFind rooms code = none →
      create_room ((create_room rooms (some code) dh fid fs gc now).1)
          (some code) dh2 fid2 fs2 gc2 now2
        = ((create_room rooms (some code) dh fid fs gc now).1,
           ⟨true, code,
            (create_room rooms (some code) dh fid fs gc now).2.room_id,
            (create_room rooms (some code) dh fid fs gc now).2.host_id, true⟩)) := by
  constructor
  · intro room hroom
    unfold create_room
    dsimp only [Option.getD]
    rw [hroom]
  · intro hnone
    unfold create_room
    dsimp only [Option.getD]
    rw [hnone]
    dsimp only
    rw [alFind_insert_self]

/-- Claim C8 (witness): creating room "KH" twice on an empty registry. -/
theorem create_room_idempotent_witness :
    create_room ((create_room [] (some "KH") none "uuid1" "s1" "G1" 3).1)
        (some "KH") (some "host2") "uuid2" "s2" "G2" 8
      = ((create_room [] (some "KH") none "uuid1" "s1" "G1" 3).1,
         ⟨true, "KH",
          (create_room [] (some "KH") none "uuid1" "s1" "G1" 3).2.room_id,
          (create_room [] (some "KH") none "uuid1" "s1" "G1" 3).2.host_id, true⟩) :=
  (create_room_idempotent [] "KH" none (some "host2") "uuid1" "s1" "G1"
    "uuid2" "s2" "G2" 3 8).2 rfl

theorem handleJoin_ok (rooms : Registry) (sess : Session) (rc pid : String)
    (is_host : Bool) (md : Option String) (now : Nat) (room : Room)
    (hfind : alFind rooms rc = some room) :
    handleJoin rooms sess rc pid is_host md now = Except.ok
      (alInsert rooms rc { room with
          peers := alInsert room.peers pid ⟨pid, now, is_host, md⟩,
          empty_since := none },
       ⟨some rc, some pid⟩,
       [ServerMessage.roomInfo rc room.host_id
          ((alInsert room.peers pid ⟨pid, now, is_host, md⟩).map (fun kv => kv.2)),
        ServerMessage.connected pid rc]
         ++ (match room.document_state with
             | some doc => [ServerMessage.documentSync doc]
             | none => []),
       [(rc, RoomEvent.peerJoined ⟨pid, now, is_host, md⟩)]) := by
  rcases room with ⟨rid, rhost, rcreated, rpeers, rdoc, rsync, rempty⟩
  cases rempty <;> cases rdoc <;> (unfold handleJoin; rw [hfind]) <;> rfl

/-- Claim C10: Join does not leave the previous room. A session already in
room A that handles a Join for a different existing room B inserts the peer
into B and repoints `current_room`/`current_peer_id` at B; room A's registry
entry is untouched, no event is published on A's bus, and the terminal
cleanup (the leave path on the session's variables) also only touches B —
every published event, both at join time and at cleanup, is tagged with B. -/
theorem join_switch_room_frame (rooms : Registry) (sessA : Session)
    (codeA codeB pid : String) (is_host : Bool) (md : Option String) (now now2 : Nat)
    (roomB : Room)
    (_hA : sessA.current_room = some codeA)
    (hne : codeA ≠ codeB)
    (hB : alFind rooms codeB = some roomB) :
    ∃ rooms' sess' msgs evs,
      handleJoin rooms sessA codeB pid is_host md now
        = Except.ok (rooms', sess', msgs, evs) ∧
      sess' = ⟨some codeB, some pid⟩ ∧
      alFind rooms' codeA = alFind rooms codeA ∧
      (∀ e ∈ evs, e.1 = codeB) ∧
      alFind (handleLeave rooms' sess' now2).1 codeA = alFind rooms codeA ∧
      (∀ e ∈ (handleLeave rooms' sess' now2).2.2.1, e.1 = codeB) := by
  have hBA : codeB ≠ codeA := fun h => hne h.symm
  refine ⟨_, _, _, _, handleJoin_ok rooms sessA codeB pid is_host md now roomB hB,
    rfl, ?_, ?_, ?_, ?_⟩
  · exact alFind_insert_ne _ _ _ _ hBA
  · intro e he
    rw [List.mem_singleton.mp he]
  · show alFind (leave_room _ codeB pid now2).1 codeA = alFind rooms codeA
    unfold leave_room
    rw [alFind_insert_self]
    dsimp only
    rw [alFind_insert_ne _ _ _ _ hBA]
    exact alFind_insert_ne _ _ _ _ hBA
  · show ∀ e ∈ (leave_room _ codeB pid now2).2, e.1 = codeB
    intro e he
    unfold leave_room at he
    rw [alFind_insert_self] at he
    dsimp only at he
    rw [List.mem_singleton.mp he]

/-- Claim C10 (witness): a session sitting in room "A" joins existing room
"B"; room "A" (still holding peer "pa") is untouched by the join and by the
terminal cleanup, and every published event is tagged with "B". -/
theorem join_switch_room_frame_witness :
    ∃ rooms' sess' msgs evs,
      handleJoin
        [("A", { id := "ra", host_id := "ha", created_at := 0,
                 peers := [("pa", { id := "pa", joined_at := 0, is_host := true,
                                    metadata := none })],
                 document_state := none, last_sync := 0, empty_since := none }),
         ("B", { id := "rb", host_id := "hb", created_at := 0, peers := [],
                 document_state := none, last_sync := 0, empty_since := some 0 })]
        ⟨some "A", some "pa"⟩ "B" "pa" false none 4
        = Except.ok (rooms', sess', msgs, evs) ∧
      sess' = ⟨some "B", some "pa"⟩ ∧
      alFind rooms' "A"
        = alFind
          [("A", { id := "ra", host_id := "ha", created_at := 0,
                   peers := [("pa", { id := "pa", joined_at := 0, is_host := true,
                                      metadata := none })],
                   document_state := none, last_sync := 0, empty_since := none }),
           ("B", { id := "rb", host_id := "hb", created_at := 0, peers := [],
                   document_state := none, last_sync := 0, empty_since := some 0 })] "A" ∧
      (∀ e ∈ evs, e.1 = "B") ∧
      alFind (handleLeave rooms' sess' 9).1 "A"
        = alFind
          [("A", { id := "ra", host_id := "ha", created_at := 0,
                   peers := [("pa", { id := "pa", joined_at := 0, is_host := true,
                                      metadata := none })],
                   document_state := none, last_sync := 0, empty_since := none }),
           ("B", { id := "rb", host_id := "hb", created_at := 0, peers := [],
                   document_state := none, last_sync := 0, empty_since := some 0 })] "A" ∧
      (∀ e ∈ (handleLeave rooms' sess' 9).2.2.1, e.1 = "B") :=
  join_switch_room_frame
    [("A", { id := "ra", host_id := "ha", created_at := 0,
             peers := [("pa", { id := "pa", joined_at := 0, is_host := true,
                                metadata := none })],
             document_state := none, last_sync := 0, empty_since := none }),
     ("B", { id := "rb", host_id := "hb", created_at := 0, peers := [],
             document_state := none, last_sync := 0, empty_since := some 0 })]
    ⟨some "A", some "pa"⟩ "A" "B" "pa" false none 4 9
    { id := "rb", host_id := "hb", created_at := 0, peers := [],
      document_state := none, last_sync := 0, empty_since := some 0 }
    rfl (by decide) (by decide)

theorem digitVal_digitChar {d : Nat} (h : d < 10) : digitVal (digitChar d) = some d := by
  interval_cases d <;> rfl

theorem parseDigits_map_digitChar (ds : List Nat) (h : ∀ d ∈ ds, d < 10) :
    parseDigits (ds.map digitChar) = some ds := by
  induction ds with
  | nil => rfl
  | cons d rest ih =>
    simp only [List.map_cons, parseDigits,
               digitVal_digitChar (h d (List.mem_cons_self _ _)),
               ih (fun x hx => h x (List.mem_cons_of_mem _ hx))]

theorem strToNat_natToStr (n : Nat) : strToNat (natToStr n) = some n := by
  by_cases h0 : n = 0
  · subst h0
    rfl
  · unfold natToStr
    rw [if_neg h0]
    have hne : (Nat.digits 10 n).reverse.map digitChar ≠ [] := by
      simp [Nat.digits_ne_nil_iff_ne_zero.mpr h0]
    obtain ⟨c, cs, hcs⟩ := List.exists_cons_of_ne_nil hne
    have hbranch : strToNat (String.mk ((Nat.digits 10 n).reverse.map digitChar))
        = (parseDigits ((Nat.digits 10 n).reverse.map digitChar)).map
            (fun ds => Nat.ofDigits 10 ds.reverse) := by
      unfold strToNat
      rw [show (String.mk ((Nat.digits 10 n).reverse.map digitChar)).data
            = (Nat.digits 10 n).reverse.map digitChar from rfl, hcs]
    rw [hbranch,
        parseDigits_map_digitChar _
          (fun d hd => Nat.digits_lt_base (by norm_num) (List.mem_reverse.mp hd))]
    simp [Nat.ofDigits_digits]

theorem decodeTs_encodeTs (ts : LamportTimestamp) : decodeTs (encodeTs ts) = some ts := rfl

theorem decodeVal_encodeVal (v : CrdtValue) : decodeVal (encodeVal v) = some v := rfl

theorem decodeFieldsList_encode (fs : List (String × CrdtValue)) :
    decodeFieldsList (fs.map (fun kv => (kv.1, encodeVal kv.2))) = some fs := by
  induction fs with
  | nil => rfl
  | cons kv rest ih =>
    simp only [List.map_cons, decodeFieldsList, decodeVal_encodeVal, ih]

theorem decodeFields_encodeFields (fs : List (String × CrdtValue)) :
    decodeFields (encodeFields fs) = some fs := by
  simp only [encodeFields, decodeFields]
  exact decodeFieldsList_encode fs

theorem decodeTask_encodeTask (t : CrdtTask) : decodeTask (encodeTask t) = some t := by
  have hred : decodeTask (encodeTask t)
      = (decodeFields (encodeFields t.fields)).bind (fun fs =>
          (decodeTs (encodeTs t.created_at)).bind (fun cts =>
            (decodeTs (encodeTs t.updated_at)).map (fun uts =>
              ⟨t.id, fs, t.deleted, cts, uts⟩))) := rfl
  rw [hred, decodeFields_encodeFields, decodeTs_encodeTs, decodeTs_encodeTs]
  rfl

theorem decodeTasksList_encode (ts : List (Nat × CrdtTask)) :
    decodeTasksList (ts.map (fun kv => (natToStr kv.1, encodeTask kv.2))) = some ts := by
  induction ts with
  | nil => rfl
  | cons kv rest ih =>
    simp only [List.map_cons, decodeTasksList, strToNat_natToStr, decodeTask_encodeTask, ih]

/-- Claim C7: import of an exported document succeeds and reproduces the
document exactly — the tasks map round-trips through the serialization, and
`node_id`, `counter` and the operations journal are untouched because import
only replaces the tasks map. -/
theorem import_export_roundtrip (d : CrdtDocument) :
    d.importDoc d.export = some d := by
  unfold CrdtDocument.importDoc CrdtDocument.export
  simp only [encodeTasks, decodeTasks, decodeTasksList_encode]
  rfl
